import Mathlib

/-!
A shallow embedding of the px2 pipeline (scanner.rs, compiler.rs, vm.rs,
main.rs): source text is a list of bytes, the scanner produces tokens one
at a time, the compiler verifies each token against a compile-time type
stack and emits one bytecode operation per accepted token, and the VM
replays the emitted operations on a runtime value stack.

Modelling conventions:
* Rust byte buffers become `List Nat` (each entry a byte value).
* Scanner loops (`skip_whitespace`, the digit and identifier runs) and the
  compiler token loop are written with an explicit fuel argument so that
  every definition is structurally recursive and computable; the fuel
  supplied by the wrappers is provably sufficient (see the termination
  theorems below), so the fuel-exhausted branch is unreachable.
* `i64` arithmetic uses `Int` with two's-complement wrap-around
  (`wrap64`), the semantics of release-profile Rust `+`, `-`, `*`;
  division models the unconditional Rust checks: it traps on a zero
  divisor and on `i64::MIN / -1`.
* Rust panics (out-of-bounds indexing, `unwrap` on `None`) are modelled
  as explicit failure values (`Option`/error constructors), never as
  silently defined results.
-/

namespace Px2

/-! ## Bytes and character classes (scanner.rs) -/

/-- The byte values of an ASCII string literal; used to write concrete
source programs and keyword spellings. -/
def strBytes (s : String) : List Nat := s.data.map Char.toNat

/-- Rust `u8::is_ascii_digit`. -/
def isAsciiDigit (b : Nat) : Bool := decide (48 ≤ b) && decide (b ≤ 57)

/-- Rust `char::is_alphabetic` applied to `byte as char`, i.e. to the
Unicode code point equal to the byte value: ASCII letters plus the
Latin-1 alphabetic code points (0xAA, 0xB5, 0xBA, 0xC0-0xD6, 0xD8-0xF6,
0xF8-0xFF). -/
def isAlphabeticByte (b : Nat) : Bool :=
  (decide (65 ≤ b) && decide (b ≤ 90)) || (decide (97 ≤ b) && decide (b ≤ 122)) ||
  decide (b = 170) || decide (b = 181) || decide (b = 186) ||
  (decide (192 ≤ b) && decide (b ≤ 214)) || (decide (216 ≤ b) && decide (b ≤ 246)) ||
  (decide (248 ≤ b) && decide (b ≤ 255))

/-- Rust `u8::is_ascii_alphanumeric`. -/
def isAsciiAlphanumericByte (b : Nat) : Bool :=
  isAsciiDigit b || (decide (65 ≤ b) && decide (b ≤ 90)) || (decide (97 ≤ b) && decide (b ≤ 122))

/-! ## Scanner (scanner.rs) -/

/-- `TokenType` from scanner.rs. -/
inductive TokenType
  | Dup
  | Drop
  | EndOfFile
  | Error
  | False
  | Identifier
  | Int
  | Minus
  | Over
  | Plus
  | PrintLn
  | Rot
  | Slash
  | Star
  | Swap
  | True
deriving DecidableEq, Repr

/-- `Token` from scanner.rs; `text` is the borrowed lexeme as bytes. -/
structure Token where
  token_type : TokenType
  start : Nat
  length : Nat
  line : Nat
  column : Nat
  text : List Nat
deriving DecidableEq, Repr

/-- `Scanner` from scanner.rs; `code_bytes` is the source buffer. -/
structure Scanner where
  code_bytes : List Nat
  start : Nat
  current : Nat
  line : Nat
  column : Nat
deriving DecidableEq, Repr

/-- `Scanner::new`. -/
def Scanner.new (bytes : List Nat) : Scanner :=
  { code_bytes := bytes, start := 0, current := 0, line := 1, column := 1 }

/-- `Scanner::skip_whitespace`, as a fuel-indexed loop: consume newline
(advancing the line counter and resetting the column to 1), space and
carriage return bytes until a non-whitespace byte or the end of the
buffer. -/
def skipWsFuel : Nat → Scanner → Scanner
  | 0, s => s
  | fuel + 1, s =>
    if s.code_bytes.length ≤ s.current then s
    else
      let b := s.code_bytes.getD s.current 0
      if b = 10 then
        skipWsFuel fuel { s with current := s.current + 1, line := s.line + 1, column := 1 }
      else if b = 32 ∨ b = 13 then
        skipWsFuel fuel { s with current := s.current + 1, column := s.column + 1 }
      else s

/-- `Scanner::skip_whitespace` with its provably sufficient fuel. -/
def Scanner.skip_whitespace (s : Scanner) : Scanner :=
  skipWsFuel (s.code_bytes.length - s.current) s

/-- The digit-run loop inside `Scanner::make_number`. -/
def consumeDigitsFuel : Nat → Scanner → Scanner
  | 0, s => s
  | fuel + 1, s =>
    if s.code_bytes.length ≤ s.current then s
    else if isAsciiDigit (s.code_bytes.getD s.current 0) then
      consumeDigitsFuel fuel { s with current := s.current + 1, column := s.column + 1 }
    else s

/-- The alphanumeric-or-underscore run loop inside
`Scanner::make_identifier`. -/
def consumeIdentFuel : Nat → Scanner → Scanner
  | 0, s => s
  | fuel + 1, s =>
    if s.code_bytes.length ≤ s.current then s
    else if isAsciiAlphanumericByte (s.code_bytes.getD s.current 0)
            || (s.code_bytes.getD s.current 0) = 95 then
      consumeIdentFuel fuel { s with current := s.current + 1, column := s.column + 1 }
    else s

/-- `Scanner::make_token`: length is the consumed span, the column is the
running column minus that length, the text is the consumed substring. -/
def Scanner.make_token (s : Scanner) (tt : TokenType) : Token :=
  { token_type := tt
    start := s.start
    length := s.current - s.start
    line := s.line
    column := s.column - (s.current - s.start)
    text := (s.code_bytes.drop s.start).take (s.current - s.start) }

/-- The fixed text of `Scanner::error_token`. -/
def errorText : List Nat := strBytes "Error"

/-- `Scanner::error_token`: length 1, the running column unadjusted, and
the fixed text Error. -/
def Scanner.error_token (s : Scanner) : Token :=
  { token_type := .Error
    start := s.start
    length := 1
    line := s.line
    column := s.column
    text := errorText }

/-- The `KEYWORDS` map from scanner.rs. -/
def keywordLookup (text : List Nat) : Option TokenType :=
  if text = strBytes "dup" then some .Dup
  else if text = strBytes "drop" then some .Drop
  else if text = strBytes "false" then some .False
  else if text = strBytes "over" then some .Over
  else if text = strBytes "println" then some .PrintLn
  else if text = strBytes "rot" then some .Rot
  else if text = strBytes "swap" then some .Swap
  else if text = strBytes "true" then some .True
  else none

/-- `Scanner::scan_token`: skip whitespace, remember the token start, and
classify the next byte (digit run, identifier/keyword run, one of the
four operator bytes, or an invalid byte). Returns the token and the
updated scanner. -/
def scanTokenAfterWs (s1 : Scanner) : Token × Scanner :=
  let s := { s1 with start := s1.current }
  if s.code_bytes.length ≤ s.current then (s.make_token .EndOfFile, s)
  else
    let c := s.code_bytes.getD s.current 0
    let s2 := { s with current := s.current + 1, column := s.column + 1 }
    if isAsciiDigit c then
      let s3 := consumeDigitsFuel (s2.code_bytes.length - s2.current) s2
      (s3.make_token .Int, s3)
    else if isAlphabeticByte c then
      let s3 := consumeIdentFuel (s2.code_bytes.length - s2.current) s2
      match keywordLookup ((s3.code_bytes.drop s3.start).take (s3.current - s3.start)) with
      | some tt => (s3.make_token tt, s3)
      | none => (s3.make_token .Identifier, s3)
    else if c = 43 then (s2.make_token .Plus, s2)
    else if c = 45 then (s2.make_token .Minus, s2)
    else if c = 42 then (s2.make_token .Star, s2)
    else if c = 47 then (s2.make_token .Slash, s2)
    else (s2.error_token, s2)

/-- `Scanner::scan_token` is `skip_whitespace` followed by the
classification step. -/
def Scanner.scan_token (s0 : Scanner) : Token × Scanner :=
  scanTokenAfterWs s0.skip_whitespace

/-- The scanner state after `k` calls to `scan_token` starting from
`Scanner::new`. -/
def scanStateN (bytes : List Nat) : Nat → Scanner
  | 0 => Scanner.new bytes
  | k + 1 => ((scanStateN bytes k).scan_token).2

/-- The `k`-th token (0-based) produced by a fresh scanner on `bytes`. -/
def nthToken (bytes : List Nat) (k : Nat) : Token :=
  ((scanStateN bytes k).scan_token).1

/-- The first `n` tokens produced from scanner state `s`. -/
def tokenListN (s : Scanner) : Nat → List Token
  | 0 => []
  | n + 1 => ((s.scan_token).1) :: tokenListN ((s.scan_token).2) n

/-- The number of tokens before the first end-of-input token, computed by
driving the scanner with the given fuel. -/
def countTokens : Nat → Scanner → Nat
  | 0, _ => 0
  | fuel + 1, s =>
    if ((s.scan_token).1).token_type = .EndOfFile then 0
    else 1 + countTokens fuel ((s.scan_token).2)

/-- The number of source tokens (non-whitespace lexemes) of a buffer. -/
def numSourceTokens (bytes : List Nat) : Nat :=
  countTokens (bytes.length + 1) (Scanner.new bytes)

/-! ## Values and bytecode (vm.rs) -/

/-- `DataType` from vm.rs. -/
inductive DataType
  | Bool
  | Int
deriving DecidableEq, Repr

/-- The `Display` text of a `DataType` (used in compiler messages). -/
def DataType.display : DataType → String
  | .Bool => "Bool"
  | .Int => "Int"

/-- `Value` from vm.rs: the tagged union, rendered as a safe sum. -/
inductive Value
  | int (n : Int)
  | bool (b : Bool)
deriving DecidableEq, Repr

/-- The `data_type` tag of a value. -/
def Value.data_type : Value → DataType
  | .int _ => .Int
  | .bool _ => .Bool

/-- `Value::from_int`. -/
def Value.from_int (n : Int) : Value := .int n

/-- `Value::from_bool`. -/
def Value.from_bool (b : Bool) : Value := .bool b

/-- The `Display` text of a value, as printed by `PrintLn`: integers in
decimal, booleans as true / false. -/
def Value.display : Value → String
  | .int n => toString n
  | .bool b => if b then "true" else "false"

/-- `Op` from vm.rs. -/
inductive Op
  | Add
  | Divide
  | Drop
  | Dup
  | Multiply
  | Over
  | Push (v : Value)
  | PrintLn
  | Rot
  | Subtract
  | Swap
deriving DecidableEq, Repr

/-- Smallest `i64` value. -/
def i64Min : Int := -(2 ^ 63)

/-- Largest `i64` value. -/
def i64Max : Int := 2 ^ 63 - 1

/-- Two's-complement wrap-around into the `i64` range: the result of
release-profile Rust `i64` addition, subtraction and multiplication. -/
def wrap64 (x : Int) : Int := (x + 2 ^ 63) % 2 ^ 64 - 2 ^ 63

/-- The ways a replayed instruction can fail. `StackUnderflow` models an
`unwrap` of `None` from `Vec::pop`/`last` or an out-of-bounds index;
`TypeConfusion` models reading the `int_value` union field of a value
whose tag is `Bool` (undefined behaviour in the Rust source);
`DivideTrap` models the unconditional Rust division checks (zero divisor,
or `i64::MIN / -1`). -/
inductive VmErr
  | StackUnderflow
  | TypeConfusion
  | DivideTrap
deriving DecidableEq, Repr

/-- One instruction of `VM::run` on the runtime value stack (head of the
list is the top of the stack). Returns the new stack and the line printed
by `PrintLn`, or the failure. For the arithmetic instructions the Rust
code pops the top as the right operand and the next as the left
operand. -/
def vmStep (stack : List Value) (op : Op) : Except VmErr (List Value × Option String) :=
  match op with
  | .Add =>
    match stack with
    | .int b :: .int a :: rest => .ok (.int (wrap64 (a + b)) :: rest, none)
    | _ :: _ :: _ => .error .TypeConfusion
    | _ => .error .StackUnderflow
  | .Subtract =>
    match stack with
    | .int b :: .int a :: rest => .ok (.int (wrap64 (a - b)) :: rest, none)
    | _ :: _ :: _ => .error .TypeConfusion
    | _ => .error .StackUnderflow
  | .Multiply =>
    match stack with
    | .int b :: .int a :: rest => .ok (.int (wrap64 (a * b)) :: rest, none)
    | _ :: _ :: _ => .error .TypeConfusion
    | _ => .error .StackUnderflow
  | .Divide =>
    match stack with
    | .int b :: .int a :: rest =>
      if b = 0 ∨ (a = i64Min ∧ b = -1) then .error .DivideTrap
      else .ok (.int (a.tdiv b) :: rest, none)
    | _ :: _ :: _ => .error .TypeConfusion
    | _ => .error .StackUnderflow
  | .Push v => .ok (v :: stack, none)
  | .Dup =>
    match stack with
    | v :: rest => .ok (v :: v :: rest, none)
    | [] => .error .StackUnderflow
  | .Drop => .ok (stack.tail, none)
  | .Over =>
    match stack with
    | b :: a :: rest => .ok (a :: b :: a :: rest, none)
    | _ => .error .StackUnderflow
  | .Rot =>
    match stack with
    | c :: b :: a :: rest => .ok (a :: c :: b :: rest, none)
    | _ => .error .StackUnderflow
  | .Swap =>
    match stack with
    | b :: a :: rest => .ok (a :: b :: rest, none)
    | _ => .error .StackUnderflow
  | .PrintLn =>
    match stack with
    | v :: rest => .ok (rest, some v.display)
    | [] => .error .StackUnderflow

/-- `VM::run` on an operation list: the printed lines (up to the first
failure, if any) together with the final stack or the first failure. -/
def vmRun : List Op → List Value → List String × Except VmErr (List Value)
  | [], stack => ([], .ok stack)
  | op :: ops, stack =>
    match vmStep stack op with
    | .error e => ([], .error e)
    | .ok (stack2, out) => (out.toList ++ (vmRun ops stack2).1, (vmRun ops stack2).2)

/-- The stack outcome of `VM::run` (discarding the printed lines). -/
def vmExec (ops : List Op) (stack : List Value) : Except VmErr (List Value) :=
  (vmRun ops stack).2

/-! ## Compiler (compiler.rs) -/

/-- The sub-reasons of `std::num::ParseIntError` distinguished by
`compiler.rs::int`. -/
inductive IntErr
  | Empty
  | InvalidDigit
  | PosOverflow
  | NegOverflow
deriving DecidableEq, Repr

/-- The error message chosen by `compiler.rs::int` for each parse
failure. -/
def intErrMsg : IntErr → String
  | .Empty => "tried to parse int from empty string"
  | .InvalidDigit => "invalid digit found in string"
  | .PosOverflow => "positive integer out of range"
  | .NegOverflow => "negative integer out of range"

/-- The digit-accumulation loop of Rust `str::parse::<i64>`: reject a
non-digit byte immediately, and report overflow as soon as the running
value leaves the `i64` range. `neg` records a leading minus sign. -/
def parseI64Loop (neg : Bool) : List Nat → Int → Except IntErr Int
  | [], acc => .ok acc
  | d :: rest, acc =>
    if isAsciiDigit d then
      let dv : Int := (d : Int) - 48
      if neg then
        let acc2 := acc * 10 - dv
        if acc2 < i64Min then .error .NegOverflow else parseI64Loop neg rest acc2
      else
        let acc2 := acc * 10 + dv
        if i64Max < acc2 then .error .PosOverflow else parseI64Loop neg rest acc2
    else .error .InvalidDigit

/-- Rust `str::parse::<i64>` on a byte string: empty input is `Empty`, a
lone sign is `InvalidDigit`, otherwise the checked accumulation loop. -/
def parseI64 (text : List Nat) : Except IntErr Int :=
  match text with
  | [] => .error .Empty
  | c :: rest =>
    if c = 43 then
      if rest = [] then .error .InvalidDigit else parseI64Loop false rest 0
    else if c = 45 then
      if rest = [] then .error .InvalidDigit else parseI64Loop true rest 0
    else parseI64Loop false text 0

/-- The stack mutation of `CompilerContext::push_op` on the compile-time
type stack (head of the list is the top). `none` models the panics of the
Rust code on a too-shallow stack (`last().unwrap()`, out-of-range
`remove`/index); the arithmetic, `Drop` and `PrintLn` arms use
`Vec::pop`, which never panics. -/
def push_op_stack (stack : List DataType) (op : Op) : Option (List DataType) :=
  match op with
  | .Add | .Divide | .Subtract | .Multiply | .Drop | .PrintLn => some stack.tail
  | .Dup =>
    match stack with
    | t :: rest => some (t :: t :: rest)
    | [] => none
  | .Over =>
    match stack with
    | b :: a :: rest => some (a :: b :: a :: rest)
    | _ => none
  | .Push v => some (v.data_type :: stack)
  | .Rot =>
    match stack with
    | c :: b :: a :: rest => some (a :: c :: b :: rest)
    | _ => none
  | .Swap =>
    match stack with
    | b :: a :: rest => some (a :: b :: rest)
    | _ => none

/-- What the compiler does with one token: emit an operation, stop the
loop (end of input), or fail with the first error message. -/
inductive StepRes
  | emit (op : Op)
  | stop
  | fail (msg : String)
deriving DecidableEq, Repr

/-- The shared shape of `compiler.rs::add/subtract/multiply/divide`:
require at least two stack entries and `Int` on the top two, with the
exact messages of the Rust code. -/
def binCheck (stack : List DataType) (opName : String) (op : Op) : StepRes :=
  match stack with
  | t1 :: t2 :: _ =>
    if t1 ≠ DataType.Int then
      .fail ("expected integer on top of the stack to perform " ++ opName ++ ", found "
        ++ t1.display)
    else if t2 ≠ DataType.Int then
      .fail ("expected integer one down from the top of the stack to perform " ++ opName
        ++ ", found " ++ t2.display)
    else .emit op
  | _ =>
    .fail ("expected 2 values on the stack to perform " ++ opName ++ ", found "
      ++ toString stack.length)

/-- The per-token dispatch of the `match token.token_type` in
`compiler.rs::compile`, including the precondition checks of the helper
functions and their exact error messages. -/
def stepToken (t : Token) (stack : List DataType) : StepRes :=
  match t.token_type with
  | .Dup => if stack.isEmpty then .fail "no data on the stack to dup" else .emit .Dup
  | .Drop => if stack.isEmpty then .fail "no data on the stack to drop" else .emit .Drop
  | .EndOfFile => .stop
  | .Error => .fail "invalid token"
  | .False => .emit (.Push (Value.from_bool false))
  | .Int =>
    match parseI64 t.text with
    | .error e => .fail (intErrMsg e)
    | .ok n => .emit (.Push (Value.from_int n))
  | .Minus => binCheck stack "subtraction" .Subtract
  | .Over =>
    if stack.length < 2 then
      .fail ("need 2 elements on the stack to perform over but found " ++ toString stack.length)
    else .emit .Over
  | .Plus => binCheck stack "addition" .Add
  | .PrintLn => if stack.isEmpty then .fail "nothing on stack to print" else .emit .PrintLn
  | .Slash => binCheck stack "division" .Divide
  | .Rot =>
    if stack.length < 3 then
      .fail ("need 3 elements on the stack to perform rot but found " ++ toString stack.length)
    else .emit .Rot
  | .Star => binCheck stack "multiplication" .Multiply
  | .Swap =>
    if stack.length < 2 then
      .fail ("need 2 elements on the stack to perform swap but found " ++ toString stack.length)
    else .emit .Swap
  | .True => .emit (.Push (Value.from_bool true))
  | .Identifier => .fail "identifiers are not implemented yet"

/-- How a compilation attempt ended. `finished` is the raw loop exit at
end of input (before the final empty-stack check); `compileBytes` refines
it into `ok` or `unhandled` (the unhandled-data diagnostic).
`internalFault` models a panic inside `push_op`, and `fuelOut` marks
exhausted fuel; both are proved unreachable below. -/
inductive Outcome
  | finished
  | ok
  | errAt (t : Token) (msg : String)
  | unhandled
  | internalFault
  | fuelOut
deriving DecidableEq, Repr

/-- The observable state of a compilation run: the outcome, the emitted
operations, the final compile-time type stack, the number of `scan_token`
calls made, and the tokens printed by the verbose debug trace. -/
structure CompileResult where
  outcome : Outcome
  ops : List Op
  stack : List DataType
  tokensRead : Nat
  trace : List Token
deriving DecidableEq, Repr

/-- The token loop of `compiler.rs::compile`: scan one token, print it
when verbose, dispatch on its type, and stop at the first error or at end
of input. Each accepted token appends exactly one operation. -/
def compileLoop : Nat → Scanner → List DataType → List Op → Nat → List Token → Bool →
    CompileResult
  | 0, _, stack, ops, n, tr, _ =>
    { outcome := .fuelOut, ops := ops, stack := stack, tokensRead := n, trace := tr }
  | fuel + 1, sc, stack, ops, n, tr, verbose =>
    let t := (sc.scan_token).1
    let sc2 := (sc.scan_token).2
    let tr2 := if verbose then tr ++ [t] else tr
    match stepToken t stack with
    | .stop =>
      { outcome := .finished, ops := ops, stack := stack, tokensRead := n + 1, trace := tr2 }
    | .fail msg =>
      { outcome := .errAt t msg, ops := ops, stack := stack, tokensRead := n + 1, trace := tr2 }
    | .emit op =>
      match push_op_stack stack op with
      | none =>
        { outcome := .internalFault, ops := ops, stack := stack, tokensRead := n + 1,
          trace := tr2 }
      | some stack2 => compileLoop fuel sc2 stack2 (ops ++ [op]) (n + 1) tr2 verbose

/-- `compiler.rs::compile` after the file has been read: run the token
loop and, when it finishes normally, require the type stack to be empty
(`ok`) or report unhandled data (`unhandled`). -/
def compileBytes (bytes : List Nat) (verbose : Bool) : CompileResult :=
  let r := compileLoop (bytes.length + 1) (Scanner.new bytes) [] [] 0 [] verbose
  match r.outcome with
  | .finished => if r.stack.isEmpty then { r with outcome := .ok } else { r with outcome := .unhandled }
  | _ => r

/-- Whether `compile` reaches the `vm.run()` call: only on the `ok`
outcome. -/
def px2Ran (bytes : List Nat) (verbose : Bool) : Bool :=
  match (compileBytes bytes verbose).outcome with
  | .ok => true
  | _ => false

/-- The program output (the lines printed by executed `PrintLn`
instructions): empty unless the VM runs. -/
def px2Output (bytes : List Nat) (verbose : Bool) : List String :=
  if px2Ran bytes verbose then (vmRun (compileBytes bytes verbose).ops []).1 else []

/-! ## The diagnostic line lookup (compiler.rs::get_code_at_line) -/

/-- The `while curr_line < line` walk of `get_code_at_line`: return the
index of the first byte of the requested line, or `none` for the
out-of-bounds indexing panic. -/
def gcalLoop : Nat → List Nat → Nat → Nat → Nat → Option Nat
  | 0, _, _, _, _ => none
  | fuel + 1, bytes, line, currLine, strIndex =>
    if currLine < line then
      if strIndex < bytes.length then
        if bytes.getD strIndex 0 = 10 then gcalLoop fuel bytes line (currLine + 1) (strIndex + 1)
        else gcalLoop fuel bytes line currLine (strIndex + 1)
      else none
    else some strIndex

/-- `compiler.rs::get_code_at_line`: walk to the start of the requested
line, then take the substring up to the next newline; `none` models the
two panics of the Rust code (indexing past the buffer while searching for
the line, and `find('\n').unwrap()` when the line has no terminating
newline). -/
def get_code_at_line (line : Nat) (bytes : List Nat) : Option (List Nat) :=
  match gcalLoop (bytes.length + 1) bytes line 1 0 with
  | none => none
  | some idx =>
    let rest := bytes.drop idx
    match rest.findIdx? (fun b => b = 10) with
    | none => none
    | some j => some (rest.take j)

/-! ## Compile-time typing of operation sequences -/

/-- The stack-shape precondition that the compiler checks before emitting
each operation (the guards in `compile`, `add`, `subtract`, `multiply`,
`divide` and `println`). -/
def opCheckOk (stack : List DataType) (op : Op) : Bool :=
  match op with
  | .Add | .Subtract | .Multiply | .Divide =>
    match stack with
    | .Int :: .Int :: _ => true
    | _ => false
  | .Dup | .Drop | .PrintLn => !stack.isEmpty
  | .Over | .Swap => decide (2 ≤ stack.length)
  | .Rot => decide (3 ≤ stack.length)
  | .Push _ => true

/-- One checked compile-time step: the precondition followed by the
`push_op` stack mutation. -/
def tfStep (stack : List DataType) (op : Op) : Option (List DataType) :=
  if opCheckOk stack op then push_op_stack stack op else none

/-- The compile-time type stack after a sequence of checked operations,
or `none` if some operation fails its precondition. This is the type
stack the compiler holds at the corresponding point of the emitted
program. -/
def typeFoldChecked : List DataType → List Op → Option (List DataType)
  | ts, [] => some ts
  | ts, op :: ops =>
    match tfStep ts op with
    | none => none
    | some ts2 => typeFoldChecked ts2 ops

/-! ## The column of a position (spec, section 3) -/

/-- The index of the first byte of the line containing position `i`: one
past the last newline byte strictly before `i`. -/
def lineStartAux (bytes : List Nat) : Nat → Nat
  | 0 => 0
  | j + 1 => if bytes.getD j 0 = 10 then j + 1 else lineStartAux bytes j

/-- Modelled from the spec wording: the 1-based column of the byte at
position `i` (the position of the first character of a lexeme). -/
def colOf (bytes : List Nat) (i : Nat) : Nat := i - lineStartAux bytes i + 1

/-- The scanner position/column bookkeeping invariant: the running column
is the 1-based column of the current position, and the position is inside
the buffer. Holds for `Scanner.new` and is preserved by `scan_token`. -/
def ScanInv (s : Scanner) : Prop :=
  s.column = colOf s.code_bytes s.current ∧ s.current ≤ s.code_bytes.length

instance (s : Scanner) : Decidable (ScanInv s) := by
  unfold ScanInv; infer_instance

end Px2

namespace Px2

/-! ## Scanner loop lemmas -/

theorem skipWsFuel_code_bytes (f : Nat) (s : Scanner) :
    (skipWsFuel f s).code_bytes = s.code_bytes := by
  induction f generalizing s with
  | zero => rfl
  | succ f ih =>
    unfold skipWsFuel
    dsimp only
    split_ifs
    · rfl
    · exact ih _
    · exact ih _
    · rfl

theorem skipWsFuel_start (f : Nat) (s : Scanner) :
    (skipWsFuel f s).start = s.start := by
  induction f generalizing s with
  | zero => rfl
  | succ f ih =>
    unfold skipWsFuel
    dsimp only
    split_ifs
    · rfl
    · exact ih _
    · exact ih _
    · rfl

theorem skipWsFuel_current_mono (f : Nat) (s : Scanner) :
    s.current ≤ (skipWsFuel f s).current := by
  induction f generalizing s with
  | zero => exact Nat.le_refl _
  | succ f ih =>
    unfold skipWsFuel
    dsimp only
    split_ifs
    · exact Nat.le_refl _
    · have h := ih { s with current := s.current + 1, line := s.line + 1, column := 1 }
      exact Nat.le_trans (Nat.le_succ _) h
    · have h := ih { s with current := s.current + 1, column := s.column + 1 }
      exact Nat.le_trans (Nat.le_succ _) h
    · exact Nat.le_refl _

theorem skipWsFuel_current_le (f : Nat) (s : Scanner)
    (h : s.current ≤ s.code_bytes.length) :
    (skipWsFuel f s).current ≤ s.code_bytes.length := by
  induction f generalizing s with
  | zero => exact h
  | succ f ih =>
    unfold skipWsFuel
    dsimp only
    split_ifs with h1 h2 h3
    · exact h
    · exact ih _ (by dsimp; omega)
    · exact ih _ (by dsimp; omega)
    · exact h


theorem skipWsFuel_post (f : Nat) (s : Scanner)
    (hf : s.code_bytes.length - s.current ≤ f) :
    (skipWsFuel f s).current < s.code_bytes.length →
      s.code_bytes.getD (skipWsFuel f s).current 0 ≠ 10 ∧
      s.code_bytes.getD (skipWsFuel f s).current 0 ≠ 32 ∧
      s.code_bytes.getD (skipWsFuel f s).current 0 ≠ 13 := by
  induction f generalizing s with
  | zero => unfold skipWsFuel; intro h; omega
  | succ f ih =>
    unfold skipWsFuel
    dsimp only
    split_ifs with h1 h2 h3
    · intro h; exact absurd h (by omega)
    · exact ih _ (by dsimp; omega)
    · exact ih _ (by dsimp; omega)
    · intro _
      exact ⟨h2, fun hc => h3 (Or.inl hc), fun hc => h3 (Or.inr hc)⟩

theorem consumeDigitsFuel_code_bytes (f : Nat) (s : Scanner) :
    (consumeDigitsFuel f s).code_bytes = s.code_bytes := by
  induction f generalizing s with
  | zero => rfl
  | succ f ih =>
    unfold consumeDigitsFuel
    split_ifs
    · rfl
    · exact ih _
    · rfl

theorem consumeDigitsFuel_start (f : Nat) (s : Scanner) :
    (consumeDigitsFuel f s).start = s.start := by
  induction f generalizing s with
  | zero => rfl
  | succ f ih =>
    unfold consumeDigitsFuel
    split_ifs
    · rfl
    · exact ih _
    · rfl

theorem consumeDigitsFuel_current_mono (f : Nat) (s : Scanner) :
    s.current ≤ (consumeDigitsFuel f s).current := by
  induction f generalizing s with
  | zero => exact Nat.le_refl _
  | succ f ih =>
    unfold consumeDigitsFuel
    split_ifs
    · exact Nat.le_refl _
    · have h := ih { s with current := s.current + 1, column := s.column + 1 }
      exact Nat.le_trans (Nat.le_succ _) h
    · exact Nat.le_refl _

theorem consumeDigitsFuel_current_le (f : Nat) (s : Scanner)
    (h : s.current ≤ s.code_bytes.length) :
    (consumeDigitsFuel f s).current ≤ s.code_bytes.length := by
  induction f generalizing s with
  | zero => exact h
  | succ f ih =>
    unfold consumeDigitsFuel
    split_ifs
    · exact h
    · exact ih _ (by dsimp; omega)
    · exact h

theorem consumeIdentFuel_code_bytes (f : Nat) (s : Scanner) :
    (consumeIdentFuel f s).code_bytes = s.code_bytes := by
  induction f generalizing s with
  | zero => rfl
  | succ f ih =>
    unfold consumeIdentFuel
    split_ifs
    · rfl
    · exact ih _
    · rfl

theorem consumeIdentFuel_start (f : Nat) (s : Scanner) :
    (consumeIdentFuel f s).start = s.start := by
  induction f generalizing s with
  | zero => rfl
  | succ f ih =>
    unfold consumeIdentFuel
    split_ifs
    · rfl
    · exact ih _
    · rfl

theorem consumeIdentFuel_current_mono (f : Nat) (s : Scanner) :
    s.current ≤ (consumeIdentFuel f s).current := by
  induction f generalizing s with
  | zero => exact Nat.le_refl _
  | succ f ih =>
    unfold consumeIdentFuel
    split_ifs
    · exact Nat.le_refl _
    · have h := ih { s with current := s.current + 1, column := s.column + 1 }
      exact Nat.le_trans (Nat.le_succ _) h
    · exact Nat.le_refl _

theorem consumeIdentFuel_current_le (f : Nat) (s : Scanner)
    (h : s.current ≤ s.code_bytes.length) :
    (consumeIdentFuel f s).current ≤ s.code_bytes.length := by
  induction f generalizing s with
  | zero => exact h
  | succ f ih =>
    unfold consumeIdentFuel
    split_ifs
    · exact h
    · exact ih _ (by dsimp; omega)
    · exact h

/-! ## skip_whitespace and scan_token framing lemmas -/

theorem skip_whitespace_code_bytes (s : Scanner) :
    (s.skip_whitespace).code_bytes = s.code_bytes :=
  skipWsFuel_code_bytes _ _

theorem skip_whitespace_start (s : Scanner) :
    (s.skip_whitespace).start = s.start :=
  skipWsFuel_start _ _

theorem skip_whitespace_current_mono (s : Scanner) :
    s.current ≤ (s.skip_whitespace).current :=
  skipWsFuel_current_mono _ _

theorem skip_whitespace_current_le (s : Scanner) (h : s.current ≤ s.code_bytes.length) :
    (s.skip_whitespace).current ≤ s.code_bytes.length :=
  skipWsFuel_current_le _ _ h

theorem skip_whitespace_post (s : Scanner) :
    (s.skip_whitespace).current < s.code_bytes.length →
      s.code_bytes.getD (s.skip_whitespace).current 0 ≠ 10 ∧
      s.code_bytes.getD (s.skip_whitespace).current 0 ≠ 32 ∧
      s.code_bytes.getD (s.skip_whitespace).current 0 ≠ 13 :=
  skipWsFuel_post _ _ (Nat.le_refl _)

theorem scanTokenAfterWs_code_bytes (s1 : Scanner) :
    ((scanTokenAfterWs s1).2).code_bytes = s1.code_bytes := by
  unfold scanTokenAfterWs
  dsimp only
  split_ifs <;> (try split) <;>
    first
      | rfl
      | exact consumeDigitsFuel_code_bytes _ _
      | exact consumeIdentFuel_code_bytes _ _

theorem scanTokenAfterWs_progress (s1 : Scanner)
    (h : ((scanTokenAfterWs s1).1).token_type ≠ .EndOfFile) :
    s1.current < ((scanTokenAfterWs s1).2).current := by
  unfold scanTokenAfterWs at h ⊢
  dsimp only at h ⊢
  split_ifs at h ⊢ <;> (try split at h) <;> (try split) <;>
    first
      | exact absurd rfl h
      | (refine Nat.lt_of_lt_of_le ?_ (consumeDigitsFuel_current_mono _ _)
         exact Nat.lt_succ_of_le (Nat.le_refl _))
      | (refine Nat.lt_of_lt_of_le ?_ (consumeIdentFuel_current_mono _ _)
         exact Nat.lt_succ_of_le (Nat.le_refl _))
      | exact Nat.lt_succ_of_le (Nat.le_refl _)

theorem scanTokenAfterWs_length_pos (s1 : Scanner)
    (h : ((scanTokenAfterWs s1).1).token_type ≠ .EndOfFile) :
    1 ≤ ((scanTokenAfterWs s1).1).length := by
  unfold scanTokenAfterWs at h ⊢
  dsimp only at h ⊢
  split_ifs at h ⊢ <;> (try split at h) <;> (try split) <;>
    first
      | exact absurd rfl h
      | (simp only [Scanner.make_token, Scanner.error_token]
         have h1 := consumeDigitsFuel_current_mono
           (s1.code_bytes.length - (s1.current + 1))
           { code_bytes := s1.code_bytes, start := s1.current, current := s1.current + 1,
             line := s1.line, column := s1.column + 1 }
         have h2 := consumeDigitsFuel_start
           (s1.code_bytes.length - (s1.current + 1))
           { code_bytes := s1.code_bytes, start := s1.current, current := s1.current + 1,
             line := s1.line, column := s1.column + 1 }
         dsimp at h1 h2
         omega)
      | (simp only [Scanner.make_token, Scanner.error_token]
         have h1 := consumeIdentFuel_current_mono
           (s1.code_bytes.length - (s1.current + 1))
           { code_bytes := s1.code_bytes, start := s1.current, current := s1.current + 1,
             line := s1.line, column := s1.column + 1 }
         have h2 := consumeIdentFuel_start
           (s1.code_bytes.length - (s1.current + 1))
           { code_bytes := s1.code_bytes, start := s1.current, current := s1.current + 1,
             line := s1.line, column := s1.column + 1 }
         dsimp at h1 h2
         omega)
      | (simp only [Scanner.make_token, Scanner.error_token]
         omega)

theorem scanTokenAfterWs_current_le (s1 : Scanner) (h : s1.current ≤ s1.code_bytes.length) :
    ((scanTokenAfterWs s1).2).current ≤ s1.code_bytes.length := by
  unfold scanTokenAfterWs
  dsimp only
  split_ifs <;> (try split) <;>
    first
      | exact h
      | exact consumeDigitsFuel_current_le _ _ (by dsimp; omega)
      | exact consumeIdentFuel_current_le _ _ (by dsimp; omega)
      | (dsimp [Scanner.error_token]; omega)

theorem scan_token_code_bytes (s : Scanner) :
    ((s.scan_token).2).code_bytes = s.code_bytes := by
  unfold Scanner.scan_token
  rw [scanTokenAfterWs_code_bytes, skip_whitespace_code_bytes]

theorem scan_token_progress (s : Scanner)
    (h : ((s.scan_token).1).token_type ≠ .EndOfFile) :
    s.current < ((s.scan_token).2).current := by
  unfold Scanner.scan_token at h ⊢
  exact Nat.lt_of_le_of_lt (skip_whitespace_current_mono s) (scanTokenAfterWs_progress _ h)

theorem scan_token_length_pos (s : Scanner)
    (h : ((s.scan_token).1).token_type ≠ .EndOfFile) :
    1 ≤ ((s.scan_token).1).length := by
  unfold Scanner.scan_token at h ⊢
  exact scanTokenAfterWs_length_pos _ h

theorem scan_token_current_le (s : Scanner) (h : s.current ≤ s.code_bytes.length) :
    ((s.scan_token).2).current ≤ s.code_bytes.length := by
  unfold Scanner.scan_token
  have h2 := scanTokenAfterWs_current_le s.skip_whitespace
    (by rw [skip_whitespace_code_bytes]; exact skip_whitespace_current_le s h)
  rw [skip_whitespace_code_bytes] at h2
  exact h2


/-! ## stepToken characterization -/

theorem binCheck_ne_stop (stack : List DataType) (nm : String) (op : Op) :
    binCheck stack nm op ≠ .stop := by
  unfold binCheck
  split
  · split_ifs <;> simp
  · simp

theorem binCheck_emit (stack : List DataType) (nm : String) (op op2 : Op)
    (h : binCheck stack nm op = .emit op2) :
    op2 = op ∧ ∃ r, stack = .Int :: .Int :: r := by
  unfold binCheck at h
  split at h
  · rename_i t1 t2 r
    split_ifs at h with h1 h2
    cases h
    have e1 : t1 = DataType.Int := not_not.mp h1
    have e2 : t2 = DataType.Int := not_not.mp h2
    subst e1; subst e2
    exact ⟨rfl, r, rfl⟩
  · simp at h

theorem stepToken_of_eof (t : Token) (stack : List DataType)
    (h : t.token_type = .EndOfFile) : stepToken t stack = .stop := by
  unfold stepToken
  rw [h]

theorem stepToken_stop (t : Token) (stack : List DataType)
    (h : stepToken t stack = .stop) : t.token_type = .EndOfFile := by
  unfold stepToken at h
  split at h <;>
    first
      | assumption
      | (split_ifs at h <;> simp at h)
      | simp at h
      | (exact absurd h (binCheck_ne_stop _ _ _))
      | (split at h <;> simp at h)

theorem stepToken_emit_some (t : Token) (stack : List DataType) (op : Op)
    (h : stepToken t stack = .emit op) :
    ∃ ts2, tfStep stack op = some ts2 := by
  unfold stepToken at h
  split at h
  · -- Dup
    split_ifs at h with h1
    cases h
    cases stack with
    | nil => simp [List.isEmpty] at h1
    | cons x r => exact ⟨_, rfl⟩
  · -- Drop
    split_ifs at h with h1
    cases h
    cases stack with
    | nil => simp [List.isEmpty] at h1
    | cons x r => exact ⟨_, rfl⟩
  · -- EndOfFile
    simp at h
  · -- Error
    simp at h
  · -- False
    cases h
    exact ⟨_, rfl⟩
  · -- Int
    split at h
    · simp at h
    · cases h
      exact ⟨_, rfl⟩
  · -- Minus
    obtain ⟨he, r, hs⟩ := binCheck_emit _ _ _ _ h
    subst he; subst hs
    exact ⟨_, rfl⟩
  · -- Over
    split_ifs at h with h1
    cases h
    match stack, h1 with
    | b :: a :: r, _ =>
      refine ⟨a :: b :: a :: r, ?_⟩
      unfold tfStep
      rw [if_pos (by simp [opCheckOk])]
      rfl
    | [], h1 => simp at h1
    | [x], h1 => simp at h1
  · -- Plus
    obtain ⟨he, r, hs⟩ := binCheck_emit _ _ _ _ h
    subst he; subst hs
    exact ⟨_, rfl⟩
  · -- PrintLn
    split_ifs at h with h1
    cases h
    cases stack with
    | nil => simp [List.isEmpty] at h1
    | cons x r => exact ⟨_, rfl⟩
  · -- Slash
    obtain ⟨he, r, hs⟩ := binCheck_emit _ _ _ _ h
    subst he; subst hs
    exact ⟨_, rfl⟩
  · -- Rot
    split_ifs at h with h1
    cases h
    match stack, h1 with
    | c :: b :: a :: r, _ =>
      refine ⟨a :: c :: b :: r, ?_⟩
      unfold tfStep
      rw [if_pos (by simp [opCheckOk])]
      rfl
    | [], h1 => simp at h1
    | [x], h1 => simp at h1
    | [x, y], h1 => simp at h1
  · -- Star
    obtain ⟨he, r, hs⟩ := binCheck_emit _ _ _ _ h
    subst he; subst hs
    exact ⟨_, rfl⟩
  · -- Swap
    split_ifs at h with h1
    cases h
    match stack, h1 with
    | b :: a :: r, _ =>
      refine ⟨a :: b :: r, ?_⟩
      unfold tfStep
      rw [if_pos (by simp [opCheckOk])]
      rfl
    | [], h1 => simp at h1
    | [x], h1 => simp at h1
  · -- True
    cases h
    exact ⟨_, rfl⟩
  · -- Identifier
    simp at h


/-! ## Compiler loop lemmas -/

theorem stepToken_emit_ne_eof (t : Token) (stack : List DataType) (op : Op)
    (h : stepToken t stack = .emit op) : t.token_type ≠ .EndOfFile := by
  intro he
  rw [stepToken_of_eof _ _ he] at h
  cases h

theorem compileLoop_no_fuelOut (fuel : Nat) (sc : Scanner) (stack : List DataType)
    (ops : List Op) (n : Nat) (tr : List Token) (v : Bool)
    (hb : sc.current ≤ sc.code_bytes.length)
    (hf : sc.code_bytes.length - sc.current < fuel) :
    (compileLoop fuel sc stack ops n tr v).outcome ≠ .fuelOut := by
  induction fuel generalizing sc stack ops n tr with
  | zero => omega
  | succ fuel ih =>
    unfold compileLoop
    dsimp only
    split
    · simp
    · simp
    · rename_i op hst
      split
      · simp
      · rename_i stack2 hpush
        apply ih
        · rw [scan_token_code_bytes]
          exact scan_token_current_le sc hb
        · have htne := stepToken_emit_ne_eof _ _ _ hst
          have hpr := scan_token_progress sc htne
          have hle := scan_token_current_le sc hb
          rw [scan_token_code_bytes]
          omega

theorem compileLoop_shape (fuel : Nat) (bytes : List Nat) (n : Nat) (stack : List DataType)
    (ops : List Op) (tr : List Token) (v : Bool) :
    ((compileLoop fuel (scanStateN bytes n) stack ops n tr v).outcome ≠ .fuelOut →
      (compileLoop fuel (scanStateN bytes n) stack ops n tr v).ops.length + n + 1 =
        ops.length + (compileLoop fuel (scanStateN bytes n) stack ops n tr v).tokensRead) ∧
    (∀ t m, (compileLoop fuel (scanStateN bytes n) stack ops n tr v).outcome = .errAt t m →
      1 ≤ (compileLoop fuel (scanStateN bytes n) stack ops n tr v).tokensRead ∧
      t = nthToken bytes
        ((compileLoop fuel (scanStateN bytes n) stack ops n tr v).tokensRead - 1)) := by
  induction fuel generalizing n stack ops tr with
  | zero =>
    constructor
    · intro h
      exact absurd rfl h
    · intro t m h
      cases h
  | succ fuel ih =>
    unfold compileLoop
    dsimp only
    split
    · constructor
      · intro _
        dsimp
        omega
      · intro t m h
        cases h
    · rename_i msg hst
      constructor
      · intro _
        dsimp
        omega
      · intro t m h
        cases h
        refine ⟨by dsimp; omega, ?_⟩
        rfl
    · rename_i op hst
      split
      · constructor
        · intro _
          dsimp
          omega
        · intro t m h
          cases h
      · rename_i stack2 hpush
        have hrec := ih (n + 1) stack2 (ops ++ [op])
          (if v then tr ++ [(((scanStateN bytes n)).scan_token).1] else tr)
        simp only [scanStateN] at hrec
        obtain ⟨ih1, ih2⟩ := hrec
        constructor
        · intro hout
          have := ih1 hout
          simp only [List.length_append, List.length_cons, List.length_nil] at this
          omega
        · exact ih2

theorem compileLoop_count (fuel : Nat) (sc : Scanner) (stack : List DataType)
    (ops : List Op) (n : Nat) (tr : List Token) (v : Bool) :
    (compileLoop fuel sc stack ops n tr v).outcome = .finished →
    (compileLoop fuel sc stack ops n tr v).ops.length = ops.length + countTokens fuel sc := by
  induction fuel generalizing sc stack ops n tr with
  | zero =>
    intro h
    cases h
  | succ fuel ih =>
    unfold compileLoop countTokens
    dsimp only
    split
    · rename_i hst
      intro _
      rw [if_pos (stepToken_stop _ _ hst)]
      simp
    · rename_i msg hst
      intro h
      cases h
    · rename_i op hst
      rw [if_neg (stepToken_emit_ne_eof _ _ _ hst)]
      split
      · intro h
        cases h
      · rename_i stack2 hpush
        intro h
        have hlen := ih _ _ _ _ _ h
        simp only [List.length_append, List.length_cons, List.length_nil] at hlen
        omega

theorem compileLoop_verbose (fuel : Nat) (sc : Scanner) (stack : List DataType)
    (ops : List Op) (n : Nat) (tr1 tr2 : List Token) (v1 v2 : Bool) :
    (compileLoop fuel sc stack ops n tr1 v1).outcome =
      (compileLoop fuel sc stack ops n tr2 v2).outcome ∧
    (compileLoop fuel sc stack ops n tr1 v1).ops = (compileLoop fuel sc stack ops n tr2 v2).ops ∧
    (compileLoop fuel sc stack ops n tr1 v1).stack =
      (compileLoop fuel sc stack ops n tr2 v2).stack ∧
    (compileLoop fuel sc stack ops n tr1 v1).tokensRead =
      (compileLoop fuel sc stack ops n tr2 v2).tokensRead := by
  induction fuel generalizing sc stack ops n tr1 tr2 with
  | zero => exact ⟨rfl, rfl, rfl, rfl⟩
  | succ fuel ih =>
    unfold compileLoop
    dsimp only
    split
    · exact ⟨rfl, rfl, rfl, rfl⟩
    · exact ⟨rfl, rfl, rfl, rfl⟩
    · split
      · exact ⟨rfl, rfl, rfl, rfl⟩
      · exact ih _ _ _ _ _ _


/-! ## Type-stack soundness machinery -/

theorem tfStep_push (stack : List DataType) (op : Op) (ts2 : List DataType)
    (h : tfStep stack op = some ts2) : push_op_stack stack op = some ts2 := by
  unfold tfStep at h
  split_ifs at h
  exact h

theorem typeFoldChecked_append (ts0 : List DataType) (l : List Op) (op : Op) :
    typeFoldChecked ts0 (l ++ [op]) =
      match typeFoldChecked ts0 l with
      | none => none
      | some ts => tfStep ts op := by
  induction l generalizing ts0 with
  | nil =>
    show typeFoldChecked ts0 [op] = _
    unfold typeFoldChecked
    cases h : tfStep ts0 op <;> simp [h, typeFoldChecked]
  | cons o l ih =>
    show typeFoldChecked ts0 (o :: (l ++ [op])) = _
    unfold typeFoldChecked
    cases h : tfStep ts0 o <;> simp [h, ih]

theorem typeFoldChecked_take (l : List Op) (ts ts2 : List DataType)
    (h : typeFoldChecked ts l = some ts2) (n : Nat) :
    ∃ tsn, typeFoldChecked ts (l.take n) = some tsn := by
  induction l generalizing ts n with
  | nil =>
    refine ⟨ts, ?_⟩
    cases n <;> rfl
  | cons op l ih =>
    cases n with
    | zero => exact ⟨ts, rfl⟩
    | succ n =>
      unfold typeFoldChecked at h
      cases hstep : tfStep ts op with
      | none =>
        rw [hstep] at h
        cases h
      | some ts1 =>
        rw [hstep] at h
        show ∃ tsn, typeFoldChecked ts (op :: l.take n) = some tsn
        unfold typeFoldChecked
        rw [hstep]
        exact ih ts1 h n

theorem compileLoop_tf (fuel : Nat) (sc : Scanner) (stack : List DataType)
    (ops : List Op) (n : Nat) (tr : List Token) (v : Bool)
    (hstart : typeFoldChecked [] ops = some stack) :
    typeFoldChecked [] (compileLoop fuel sc stack ops n tr v).ops =
      some (compileLoop fuel sc stack ops n tr v).stack := by
  induction fuel generalizing sc stack ops n tr with
  | zero => exact hstart
  | succ fuel ih =>
    unfold compileLoop
    dsimp only
    split
    · exact hstart
    · exact hstart
    · rename_i op hst
      split
      · exact hstart
      · rename_i stack2 hpush
        apply ih
        rw [typeFoldChecked_append, hstart]
        obtain ⟨ts2, htf⟩ := stepToken_emit_some _ _ _ hst
        have hp := tfStep_push _ _ _ htf
        rw [hp] at hpush
        cases hpush
        exact htf

/-! ## VM preservation lemmas -/

theorem map_dt_cons (st : List Value) (t : DataType) (r : List DataType)
    (h : st.map Value.data_type = t :: r) :
    ∃ v st2, st = v :: st2 ∧ v.data_type = t ∧ st2.map Value.data_type = r := by
  cases st with
  | nil => simp at h
  | cons v st2 =>
    simp only [List.map_cons, List.cons.injEq] at h
    exact ⟨v, st2, rfl, h.1, h.2⟩

theorem value_int_of_dt (v : Value) (h : v.data_type = .Int) : ∃ n, v = .int n := by
  cases v with
  | int n => exact ⟨n, rfl⟩
  | bool b => simp [Value.data_type] at h

theorem checkOk_add : ∀ (ts : List DataType), opCheckOk ts .Add = true →
    ∃ r, ts = .Int :: .Int :: r
  | .Int :: .Int :: r, _ => ⟨r, rfl⟩
  | [], hc => Bool.noConfusion hc
  | [.Int], hc => Bool.noConfusion hc
  | [.Bool], hc => Bool.noConfusion hc
  | .Bool :: _ :: _, hc => Bool.noConfusion hc
  | .Int :: .Bool :: _, hc => Bool.noConfusion hc

theorem checkOk_sub : ∀ (ts : List DataType), opCheckOk ts .Subtract = true →
    ∃ r, ts = .Int :: .Int :: r
  | .Int :: .Int :: r, _ => ⟨r, rfl⟩
  | [], hc => Bool.noConfusion hc
  | [.Int], hc => Bool.noConfusion hc
  | [.Bool], hc => Bool.noConfusion hc
  | .Bool :: _ :: _, hc => Bool.noConfusion hc
  | .Int :: .Bool :: _, hc => Bool.noConfusion hc

theorem checkOk_mul : ∀ (ts : List DataType), opCheckOk ts .Multiply = true →
    ∃ r, ts = .Int :: .Int :: r
  | .Int :: .Int :: r, _ => ⟨r, rfl⟩
  | [], hc => Bool.noConfusion hc
  | [.Int], hc => Bool.noConfusion hc
  | [.Bool], hc => Bool.noConfusion hc
  | .Bool :: _ :: _, hc => Bool.noConfusion hc
  | .Int :: .Bool :: _, hc => Bool.noConfusion hc

theorem checkOk_div : ∀ (ts : List DataType), opCheckOk ts .Divide = true →
    ∃ r, ts = .Int :: .Int :: r
  | .Int :: .Int :: r, _ => ⟨r, rfl⟩
  | [], hc => Bool.noConfusion hc
  | [.Int], hc => Bool.noConfusion hc
  | [.Bool], hc => Bool.noConfusion hc
  | .Bool :: _ :: _, hc => Bool.noConfusion hc
  | .Int :: .Bool :: _, hc => Bool.noConfusion hc

theorem vmExec_nil (st : List Value) : vmExec [] st = .ok st := rfl

theorem vmExec_cons_ok (op : Op) (ops : List Op) (st st1 : List Value) (out : Option String)
    (h : vmStep st op = .ok (st1, out)) :
    vmExec (op :: ops) st = vmExec ops st1 := by
  unfold vmExec
  conv_lhs => rw [vmRun]
  rw [h]

theorem vmExec_cons_err (op : Op) (ops : List Op) (st : List Value) (e : VmErr)
    (h : vmStep st op = .error e) :
    vmExec (op :: ops) st = .error e := by
  unfold vmExec
  conv_lhs => rw [vmRun]
  rw [h]


theorem vmStep_divide_int (a b : Int) (rest : List Value) :
    vmStep (.int b :: .int a :: rest) .Divide =
      if b = 0 ∨ (a = i64Min ∧ b = -1) then .error .DivideTrap
      else .ok (.int (a.tdiv b) :: rest, none) := rfl

theorem vm_sound_step (ts ts2 : List DataType) (op : Op) (st : List Value)
    (htf : tfStep ts op = some ts2) (hty : st.map Value.data_type = ts) :
    (∃ st2 out, vmStep st op = .ok (st2, out) ∧ st2.map Value.data_type = ts2) ∨
    (op = .Divide ∧ vmStep st op = .error .DivideTrap) := by
  have hc : opCheckOk ts op = true := by
    unfold tfStep at htf
    by_cases h : opCheckOk ts op = true
    · exact h
    · rw [if_neg h] at htf
      cases htf
  have hp : push_op_stack ts op = some ts2 := tfStep_push _ _ _ htf
  cases op with
  | Add =>
    obtain ⟨r, hts⟩ := checkOk_add ts hc
    subst hts
    obtain ⟨v1, st1, hst1, hdt1, hmap1⟩ := map_dt_cons st _ _ hty
    obtain ⟨v2, stRest, hst2, hdt2, hmap2⟩ := map_dt_cons st1 _ _ hmap1
    obtain ⟨b, hb⟩ := value_int_of_dt v1 hdt1
    obtain ⟨a, ha⟩ := value_int_of_dt v2 hdt2
    subst hst1; subst hst2; subst hb; subst ha
    simp only [push_op_stack, List.tail_cons] at hp
    cases hp
    left
    exact ⟨_, _, rfl, by simp [Value.data_type, hmap2]⟩
  | Subtract =>
    obtain ⟨r, hts⟩ := checkOk_sub ts hc
    subst hts
    obtain ⟨v1, st1, hst1, hdt1, hmap1⟩ := map_dt_cons st _ _ hty
    obtain ⟨v2, stRest, hst2, hdt2, hmap2⟩ := map_dt_cons st1 _ _ hmap1
    obtain ⟨b, hb⟩ := value_int_of_dt v1 hdt1
    obtain ⟨a, ha⟩ := value_int_of_dt v2 hdt2
    subst hst1; subst hst2; subst hb; subst ha
    simp only [push_op_stack, List.tail_cons] at hp
    cases hp
    left
    exact ⟨_, _, rfl, by simp [Value.data_type, hmap2]⟩
  | Multiply =>
    obtain ⟨r, hts⟩ := checkOk_mul ts hc
    subst hts
    obtain ⟨v1, st1, hst1, hdt1, hmap1⟩ := map_dt_cons st _ _ hty
    obtain ⟨v2, stRest, hst2, hdt2, hmap2⟩ := map_dt_cons st1 _ _ hmap1
    obtain ⟨b, hb⟩ := value_int_of_dt v1 hdt1
    obtain ⟨a, ha⟩ := value_int_of_dt v2 hdt2
    subst hst1; subst hst2; subst hb; subst ha
    simp only [push_op_stack, List.tail_cons] at hp
    cases hp
    left
    exact ⟨_, _, rfl, by simp [Value.data_type, hmap2]⟩
  | Divide =>
    obtain ⟨r, hts⟩ := checkOk_div ts hc
    subst hts
    obtain ⟨v1, st1, hst1, hdt1, hmap1⟩ := map_dt_cons st _ _ hty
    obtain ⟨v2, stRest, hst2, hdt2, hmap2⟩ := map_dt_cons st1 _ _ hmap1
    obtain ⟨b, hb⟩ := value_int_of_dt v1 hdt1
    obtain ⟨a, ha⟩ := value_int_of_dt v2 hdt2
    subst hst1; subst hst2; subst hb; subst ha
    simp only [push_op_stack, List.tail_cons] at hp
    cases hp
    by_cases hz : b = 0 ∨ (a = i64Min ∧ b = -1)
    · right
      refine ⟨rfl, ?_⟩
      rw [vmStep_divide_int, if_pos hz]
    · left
      refine ⟨Value.int (a.tdiv b) :: stRest, none, ?_, ?_⟩
      · rw [vmStep_divide_int, if_neg hz]
      · simp [Value.data_type, hmap2]
  | Dup =>
    cases ts with
    | nil => simp [opCheckOk, List.isEmpty] at hc
    | cons t r =>
      obtain ⟨v, st1, hst1, hdt, hmap1⟩ := map_dt_cons st _ _ hty
      subst hst1
      simp only [push_op_stack] at hp
      cases hp
      left
      exact ⟨v :: v :: st1, none, rfl, by simp [hdt, hmap1]⟩
  | Drop =>
    cases ts with
    | nil => simp [opCheckOk, List.isEmpty] at hc
    | cons t r =>
      obtain ⟨v, st1, hst1, hdt, hmap1⟩ := map_dt_cons st _ _ hty
      subst hst1
      simp only [push_op_stack, List.tail_cons] at hp
      cases hp
      left
      exact ⟨st1, none, rfl, hmap1⟩
  | PrintLn =>
    cases ts with
    | nil => simp [opCheckOk, List.isEmpty] at hc
    | cons t r =>
      obtain ⟨v, st1, hst1, hdt, hmap1⟩ := map_dt_cons st _ _ hty
      subst hst1
      simp only [push_op_stack, List.tail_cons] at hp
      cases hp
      left
      exact ⟨st1, some v.display, rfl, hmap1⟩
  | Push v =>
    simp only [push_op_stack] at hp
    cases hp
    left
    exact ⟨v :: st, none, rfl, by simp [hty]⟩
  | Over =>
    cases ts with
    | nil => simp [push_op_stack] at hp
    | cons t ts1 =>
      cases ts1 with
      | nil => simp [push_op_stack] at hp
      | cons t2 r =>
        obtain ⟨v1, st1, hst1, hdt1, hmap1⟩ := map_dt_cons st _ _ hty
        obtain ⟨v2, stRest, hst2, hdt2, hmap2⟩ := map_dt_cons st1 _ _ hmap1
        subst hst1; subst hst2
        simp only [push_op_stack] at hp
        cases hp
        left
        exact ⟨v2 :: v1 :: v2 :: stRest, none, rfl, by simp [hdt1, hdt2, hmap2]⟩
  | Rot =>
    cases ts with
    | nil => simp [push_op_stack] at hp
    | cons t ts1 =>
      cases ts1 with
      | nil => simp [push_op_stack] at hp
      | cons t2 ts2x =>
        cases ts2x with
        | nil => simp [push_op_stack] at hp
        | cons t3 r =>
          obtain ⟨v1, st1, hst1, hdt1, hmap1⟩ := map_dt_cons st _ _ hty
          obtain ⟨v2, st2x, hst2, hdt2, hmap2⟩ := map_dt_cons st1 _ _ hmap1
          obtain ⟨v3, stRest, hst3, hdt3, hmap3⟩ := map_dt_cons st2x _ _ hmap2
          subst hst1; subst hst2; subst hst3
          simp only [push_op_stack] at hp
          cases hp
          left
          exact ⟨v3 :: v1 :: v2 :: stRest, none, rfl, by simp [hdt1, hdt2, hdt3, hmap3]⟩
  | Swap =>
    cases ts with
    | nil => simp [push_op_stack] at hp
    | cons t ts1 =>
      cases ts1 with
      | nil => simp [push_op_stack] at hp
      | cons t2 r =>
        obtain ⟨v1, st1, hst1, hdt1, hmap1⟩ := map_dt_cons st _ _ hty
        obtain ⟨v2, stRest, hst2, hdt2, hmap2⟩ := map_dt_cons st1 _ _ hmap1
        subst hst1; subst hst2
        simp only [push_op_stack] at hp
        cases hp
        left
        exact ⟨v2 :: v1 :: stRest, none, rfl, by simp [hdt1, hdt2, hmap2]⟩

theorem vm_sound_run (ops : List Op) (ts ts2 : List DataType) (st : List Value)
    (htf : typeFoldChecked ts ops = some ts2) (hty : st.map Value.data_type = ts) :
    (∃ st2, vmExec ops st = .ok st2 ∧ st2.map Value.data_type = ts2) ∨
    vmExec ops st = .error .DivideTrap := by
  induction ops generalizing ts st with
  | nil =>
    unfold typeFoldChecked at htf
    cases htf
    exact Or.inl ⟨st, rfl, hty⟩
  | cons op ops ih =>
    unfold typeFoldChecked at htf
    cases hstep : tfStep ts op with
    | none =>
      rw [hstep] at htf
      cases htf
    | some ts1 =>
      rw [hstep] at htf
      rcases vm_sound_step ts ts1 op st hstep hty with ⟨st1, out, hvm, hty1⟩ | ⟨hdiv, hvm⟩
      · rw [vmExec_cons_ok op ops st st1 out hvm]
        exact ih ts1 st1 htf hty1
      · right
        exact vmExec_cons_err op ops st _ hvm


/-! ## Column bookkeeping lemmas -/

theorem lineStartAux_le (bytes : List Nat) (i : Nat) : lineStartAux bytes i ≤ i := by
  induction i with
  | zero => exact Nat.le_refl _
  | succ i ih =>
    unfold lineStartAux
    split_ifs
    · exact Nat.le_refl _
    · exact Nat.le_trans ih (Nat.le_succ _)

theorem lineStartAux_succ_eq (bytes : List Nat) (i : Nat) (h : bytes.getD i 0 ≠ 10) :
    lineStartAux bytes (i + 1) = lineStartAux bytes i := by
  conv_lhs => rw [lineStartAux]
  rw [if_neg h]

theorem colOf_succ (bytes : List Nat) (i : Nat) (h : bytes.getD i 0 ≠ 10) :
    colOf bytes (i + 1) = colOf bytes i + 1 := by
  unfold colOf
  rw [lineStartAux_succ_eq bytes i h]
  have := lineStartAux_le bytes i
  omega

theorem colOf_newline (bytes : List Nat) (i : Nat) (h : bytes.getD i 0 = 10) :
    colOf bytes (i + 1) = 1 := by
  unfold colOf lineStartAux
  rw [if_pos h]
  omega

theorem skipWsFuel_col (f : Nat) (s : Scanner)
    (h : s.column = colOf s.code_bytes s.current) :
    (skipWsFuel f s).column = colOf s.code_bytes (skipWsFuel f s).current := by
  induction f generalizing s with
  | zero => exact h
  | succ f ih =>
    unfold skipWsFuel
    dsimp only
    split_ifs with h1 h2 h3
    · exact h
    · exact ih _ (by dsimp; rw [colOf_newline _ _ h2])
    · refine ih _ ?_
      dsimp
      rw [colOf_succ s.code_bytes s.current (by omega), h]
    · exact h

theorem consumeDigitsFuel_col (f : Nat) (s : Scanner)
    (h : s.column = colOf s.code_bytes s.current) :
    (consumeDigitsFuel f s).column = colOf s.code_bytes (consumeDigitsFuel f s).current ∧
    lineStartAux s.code_bytes (consumeDigitsFuel f s).current =
      lineStartAux s.code_bytes s.current := by
  induction f generalizing s with
  | zero => exact ⟨h, rfl⟩
  | succ f ih =>
    unfold consumeDigitsFuel
    split_ifs with h1 h2
    · exact ⟨h, rfl⟩
    · have hd : s.code_bytes.getD s.current 0 ≠ 10 := by
        intro hc
        rw [hc] at h2
        simp [isAsciiDigit] at h2
      have hrec := ih { s with current := s.current + 1, column := s.column + 1 }
        (by dsimp; rw [colOf_succ s.code_bytes s.current hd, h])
      refine ⟨hrec.1, ?_⟩
      rw [hrec.2]
      exact lineStartAux_succ_eq s.code_bytes s.current hd
    · exact ⟨h, rfl⟩

theorem consumeIdentFuel_col (f : Nat) (s : Scanner)
    (h : s.column = colOf s.code_bytes s.current) :
    (consumeIdentFuel f s).column = colOf s.code_bytes (consumeIdentFuel f s).current ∧
    lineStartAux s.code_bytes (consumeIdentFuel f s).current =
      lineStartAux s.code_bytes s.current := by
  induction f generalizing s with
  | zero => exact ⟨h, rfl⟩
  | succ f ih =>
    unfold consumeIdentFuel
    split_ifs with h1 h2
    · exact ⟨h, rfl⟩
    · have hd : s.code_bytes.getD s.current 0 ≠ 10 := by
        intro hc
        rw [hc] at h2
        simp [isAsciiAlphanumericByte, isAsciiDigit] at h2
      have hrec := ih { s with current := s.current + 1, column := s.column + 1 }
        (by dsimp; rw [colOf_succ s.code_bytes s.current hd, h])
      refine ⟨hrec.1, ?_⟩
      rw [hrec.2]
      exact lineStartAux_succ_eq s.code_bytes s.current hd
    · exact ⟨h, rfl⟩

theorem make_token_column (s : Scanner) (tt : TokenType)
    (hcol : s.column = colOf s.code_bytes s.current)
    (hls : lineStartAux s.code_bytes s.current = lineStartAux s.code_bytes s.start)
    (hle : s.start ≤ s.current) :
    (s.make_token tt).column = colOf s.code_bytes s.start := by
  unfold Scanner.make_token
  unfold colOf at hcol ⊢
  dsimp only
  have h1 := lineStartAux_le s.code_bytes s.start
  omega


theorem keywordLookup_ne_error (text : List Nat) (tt : TokenType)
    (h : keywordLookup text = some tt) : tt ≠ .Error := by
  unfold keywordLookup at h
  split_ifs at h <;> (cases h; simp)

theorem scanTokenAfterWs_spec (s1 : Scanner)
    (hcol : s1.column = colOf s1.code_bytes s1.current)
    (hch : s1.current < s1.code_bytes.length → s1.code_bytes.getD s1.current 0 ≠ 10) :
    ((scanTokenAfterWs s1).2).column =
      colOf s1.code_bytes ((scanTokenAfterWs s1).2).current ∧
    (((scanTokenAfterWs s1).1).token_type ≠ .Error →
      ((scanTokenAfterWs s1).1).column = colOf s1.code_bytes ((scanTokenAfterWs s1).1).start ∧
      ((scanTokenAfterWs s1).1).text =
        (s1.code_bytes.drop ((scanTokenAfterWs s1).1).start).take
          ((scanTokenAfterWs s1).1).length) ∧
    (((scanTokenAfterWs s1).1).token_type = .Error →
      ((scanTokenAfterWs s1).1).column =
        colOf s1.code_bytes ((scanTokenAfterWs s1).1).start + 1 ∧
      ((scanTokenAfterWs s1).1).text = errorText ∧
      ((scanTokenAfterWs s1).1).length = 1) := by
  unfold scanTokenAfterWs
  dsimp only
  split_ifs with h1 h2 h3 h4 h5 h6 h7
  · -- end of input
    refine ⟨hcol, ?_, ?_⟩
    · intro _
      refine ⟨?_, rfl⟩
      simp only [Scanner.make_token]
      omega
    · intro habs
      simp only [Scanner.make_token] at habs
      cases habs
  · -- integer token
    have hb10 : s1.code_bytes.getD s1.current 0 ≠ 10 := hch (by omega)
    set s2 : Scanner := { code_bytes := s1.code_bytes, start := s1.current, current := s1.current + 1, line := s1.line, column := s1.column + 1 } with hs2
    have hcb2 : s2.code_bytes = s1.code_bytes := rfl
    have hc2 : s2.current = s1.current + 1 := rfl
    have hst2 : s2.start = s1.current := rfl
    have hcol2 : s2.column = colOf s2.code_bytes s2.current := by
      rw [hs2]
      dsimp
      rw [colOf_succ _ _ hb10, hcol]
    have hloop := consumeDigitsFuel_col (s1.code_bytes.length - (s1.current + 1)) s2 hcol2
    have hstart3 := consumeDigitsFuel_start (s1.code_bytes.length - (s1.current + 1)) s2
    have hcb3 := consumeDigitsFuel_code_bytes (s1.code_bytes.length - (s1.current + 1)) s2
    have hmono3 := consumeDigitsFuel_current_mono (s1.code_bytes.length - (s1.current + 1)) s2
    set s3 := consumeDigitsFuel (s1.code_bytes.length - (s1.current + 1)) s2 with hs3
    rw [hcb2] at hloop
    refine ⟨hloop.1, ?_, ?_⟩
    · intro _
      constructor
      · have hmtc := make_token_column s3 .Int (by rw [hcb3, hcb2]; exact hloop.1)
          (by rw [hcb3, hcb2, hstart3, hst2, hloop.2, hc2]
              exact lineStartAux_succ_eq s1.code_bytes s1.current hb10)
          (by rw [hstart3, hst2]; omega)
        rw [hcb3, hcb2] at hmtc
        exact hmtc
      · simp only [Scanner.make_token]
        rw [hcb3, hcb2]
    · intro habs
      simp only [Scanner.make_token] at habs
      cases habs
  · -- identifier / keyword token
    have hb10 : s1.code_bytes.getD s1.current 0 ≠ 10 := hch (by omega)
    set s2 : Scanner := { code_bytes := s1.code_bytes, start := s1.current, current := s1.current + 1, line := s1.line, column := s1.column + 1 } with hs2
    have hcb2 : s2.code_bytes = s1.code_bytes := rfl
    have hc2 : s2.current = s1.current + 1 := rfl
    have hst2 : s2.start = s1.current := rfl
    have hcol2 : s2.column = colOf s2.code_bytes s2.current := by
      rw [hs2]
      dsimp
      rw [colOf_succ _ _ hb10, hcol]
    have hloop := consumeIdentFuel_col (s1.code_bytes.length - (s1.current + 1)) s2 hcol2
    have hstart3 := consumeIdentFuel_start (s1.code_bytes.length - (s1.current + 1)) s2
    have hcb3 := consumeIdentFuel_code_bytes (s1.code_bytes.length - (s1.current + 1)) s2
    have hmono3 := consumeIdentFuel_current_mono (s1.code_bytes.length - (s1.current + 1)) s2
    set s3 := consumeIdentFuel (s1.code_bytes.length - (s1.current + 1)) s2 with hs3
    rw [hcb2] at hloop
    have hmtc := make_token_column s3 .Identifier (by rw [hcb3, hcb2]; exact hloop.1)
      (by rw [hcb3, hcb2, hstart3, hst2, hloop.2, hc2]
          exact lineStartAux_succ_eq s1.code_bytes s1.current hb10)
      (by rw [hstart3, hst2]; omega)
    rw [hcb3, hcb2] at hmtc
    simp only [Scanner.make_token] at hmtc
    split
    · rename_i tt htt
      refine ⟨hloop.1, ?_, ?_⟩
      · intro _
        constructor
        · simp only [Scanner.make_token]
          exact hmtc
        · simp only [Scanner.make_token]
          rw [hcb3, hcb2]
      · intro habs
        simp only [Scanner.make_token] at habs
        exact absurd habs (keywordLookup_ne_error _ _ htt)
    · refine ⟨hloop.1, ?_, ?_⟩
      · intro _
        constructor
        · simp only [Scanner.make_token]
          exact hmtc
        · simp only [Scanner.make_token]
          rw [hcb3, hcb2]
      · intro habs
        simp only [Scanner.make_token] at habs
        cases habs
  · -- plus
    have hb10 : s1.code_bytes.getD s1.current 0 ≠ 10 := by omega
    refine ⟨?_, ?_, ?_⟩
    · dsimp
      rw [colOf_succ _ _ hb10, hcol]
    · intro _
      refine ⟨?_, rfl⟩
      simp only [Scanner.make_token]
      omega
    · intro habs
      simp only [Scanner.make_token] at habs
      cases habs
  · -- minus
    have hb10 : s1.code_bytes.getD s1.current 0 ≠ 10 := by omega
    refine ⟨?_, ?_, ?_⟩
    · dsimp
      rw [colOf_succ _ _ hb10, hcol]
    · intro _
      refine ⟨?_, rfl⟩
      simp only [Scanner.make_token]
      omega
    · intro habs
      simp only [Scanner.make_token] at habs
      cases habs
  · -- star
    have hb10 : s1.code_bytes.getD s1.current 0 ≠ 10 := by omega
    refine ⟨?_, ?_, ?_⟩
    · dsimp
      rw [colOf_succ _ _ hb10, hcol]
    · intro _
      refine ⟨?_, rfl⟩
      simp only [Scanner.make_token]
      omega
    · intro habs
      simp only [Scanner.make_token] at habs
      cases habs
  · -- slash
    have hb10 : s1.code_bytes.getD s1.current 0 ≠ 10 := by omega
    refine ⟨?_, ?_, ?_⟩
    · dsimp
      rw [colOf_succ _ _ hb10, hcol]
    · intro _
      refine ⟨?_, rfl⟩
      simp only [Scanner.make_token]
      omega
    · intro habs
      simp only [Scanner.make_token] at habs
      cases habs
  · -- invalid byte
    have hb10 : s1.code_bytes.getD s1.current 0 ≠ 10 := hch (by omega)
    refine ⟨?_, ?_, ?_⟩
    · dsimp
      rw [colOf_succ _ _ hb10, hcol]
    · intro habs
      exact absurd rfl habs
    · intro _
      refine ⟨?_, rfl, rfl⟩
      simp only [Scanner.error_token]
      omega


theorem ScanInv_new (bytes : List Nat) : ScanInv (Scanner.new bytes) :=
  ⟨rfl, Nat.zero_le _⟩

theorem scan_token_spec (s : Scanner) (hinv : ScanInv s) :
    ScanInv ((s.scan_token).2) ∧
    (((s.scan_token).1).token_type ≠ .Error →
      ((s.scan_token).1).column = colOf s.code_bytes ((s.scan_token).1).start ∧
      ((s.scan_token).1).text =
        (s.code_bytes.drop ((s.scan_token).1).start).take ((s.scan_token).1).length) ∧
    (((s.scan_token).1).token_type = .Error →
      ((s.scan_token).1).column = colOf s.code_bytes ((s.scan_token).1).start + 1 ∧
      ((s.scan_token).1).text = errorText ∧ ((s.scan_token).1).length = 1) := by
  obtain ⟨hcol, hle⟩ := hinv
  have hswcol : (s.skip_whitespace).column =
      colOf (s.skip_whitespace).code_bytes (s.skip_whitespace).current := by
    rw [skip_whitespace_code_bytes]
    exact skipWsFuel_col _ _ hcol
  have hswch : (s.skip_whitespace).current < (s.skip_whitespace).code_bytes.length →
      (s.skip_whitespace).code_bytes.getD (s.skip_whitespace).current 0 ≠ 10 := by
    rw [skip_whitespace_code_bytes]
    intro hlt
    exact (skip_whitespace_post s hlt).1
  have hspec := scanTokenAfterWs_spec (s.skip_whitespace) hswcol hswch
  rw [skip_whitespace_code_bytes] at hspec
  have hlen := scan_token_current_le s hle
  refine ⟨⟨?_, ?_⟩, hspec.2.1, hspec.2.2⟩
  · rw [scan_token_code_bytes]
    exact hspec.1
  · rw [scan_token_code_bytes]
    exact hlen

/-! ## compileBytes wrappers -/

theorem compileLoop_outcome_cases (fuel : Nat) (sc : Scanner) (stack : List DataType)
    (ops : List Op) (n : Nat) (tr : List Token) (v : Bool) :
    (compileLoop fuel sc stack ops n tr v).outcome ≠ .ok ∧
    (compileLoop fuel sc stack ops n tr v).outcome ≠ .unhandled := by
  induction fuel generalizing sc stack ops n tr with
  | zero => exact ⟨by simp [compileLoop], by simp [compileLoop]⟩
  | succ fuel ih =>
    unfold compileLoop
    dsimp only
    split
    · exact ⟨by simp, by simp⟩
    · exact ⟨by simp, by simp⟩
    · split
      · exact ⟨by simp, by simp⟩
      · exact ih _ _ _ _ _

theorem compileBytes_no_fuelOut (bytes : List Nat) (v : Bool) :
    (compileBytes bytes v).outcome ≠ .fuelOut := by
  have h0 := compileLoop_no_fuelOut (bytes.length + 1) (Scanner.new bytes) [] [] 0 [] v
    (Nat.zero_le _) (by dsimp [Scanner.new]; omega)
  unfold compileBytes
  dsimp only
  split
  · split_ifs <;> simp
  · exact h0

theorem compileBytes_ops_tokensRead (bytes : List Nat) (v : Bool) :
    (compileBytes bytes v).ops.length + 1 = (compileBytes bytes v).tokensRead := by
  have hnf := compileLoop_no_fuelOut (bytes.length + 1) (Scanner.new bytes) [] [] 0 [] v
    (Nat.zero_le _) (by dsimp [Scanner.new]; omega)
  have h0 := (compileLoop_shape (bytes.length + 1) bytes 0 [] [] [] v).1
  simp only [scanStateN, List.length_nil] at h0
  replace h0 := h0 hnf
  unfold compileBytes
  dsimp only
  split
  · split_ifs <;> (dsimp; omega)
  · omega

theorem compileBytes_err_first (bytes : List Nat) (v : Bool) (t : Token) (m : String) :
    (compileBytes bytes v).outcome = .errAt t m →
    1 ≤ (compileBytes bytes v).tokensRead ∧
    t = nthToken bytes ((compileBytes bytes v).tokensRead - 1) := by
  have hshape := (compileLoop_shape (bytes.length + 1) bytes 0 [] [] [] v).2 t m
  unfold compileBytes
  dsimp only
  split
  · split_ifs <;> (intro h; cases h)
  · intro h
    exact hshape h

theorem compileBytes_count (bytes : List Nat) (v : Bool) :
    (compileBytes bytes v).outcome = .ok ∨ (compileBytes bytes v).outcome = .unhandled →
    (compileBytes bytes v).ops.length = numSourceTokens bytes := by
  have hc := compileLoop_count (bytes.length + 1) (Scanner.new bytes) [] [] 0 [] v
  have hcases := compileLoop_outcome_cases (bytes.length + 1) (Scanner.new bytes) [] [] 0 [] v
  unfold compileBytes
  dsimp only
  split
  · rename_i hfin
    intro _
    split_ifs <;>
      (dsimp
       have h2 := hc hfin
       simp only [List.length_nil, Nat.zero_add] at h2
       rw [h2]
       rfl)
  · intro hor
    rcases hor with h | h
    · exact absurd h hcases.1
    · exact absurd h hcases.2

theorem compileBytes_ok_tf (bytes : List Nat) (v : Bool) :
    (compileBytes bytes v).outcome = .ok →
    typeFoldChecked [] (compileBytes bytes v).ops = some [] := by
  have htf := compileLoop_tf (bytes.length + 1) (Scanner.new bytes) [] [] 0 [] v rfl
  have hcases := compileLoop_outcome_cases (bytes.length + 1) (Scanner.new bytes) [] [] 0 [] v
  unfold compileBytes
  dsimp only
  split
  · rename_i hfin
    split_ifs with hemp
    · intro _
      dsimp
      have hnil : (compileLoop (bytes.length + 1) (Scanner.new bytes) [] [] 0 [] v).stack = [] :=
        List.isEmpty_iff.mp hemp
      rw [htf, hnil]
    · intro h
      cases h
  · intro h
    exact absurd h hcases.1


/-! ## Claim theorems -/

/-- C1 (amended): for every source program that compiles without error,
replaying any prefix of the emitted bytecode on the empty runtime stack
either succeeds with a stack whose value tags are exactly the checked
compile-time type stack at that point, or stops at a Divide trap (zero
divisor or the i64 MIN / -1 overflow, the only runtime failures); and
the full run, when it completes, ends with the empty stack (the final
compile-time type stack being empty is enforced by the compiler). -/
theorem compile_ok_replay_types (bytes : List Nat)
    (h : (compileBytes bytes false).outcome = .ok) :
    (∀ n, (∃ st, vmExec ((compileBytes bytes false).ops.take n) [] = .ok st ∧
            typeFoldChecked [] ((compileBytes bytes false).ops.take n) =
              some (st.map Value.data_type)) ∨
          vmExec ((compileBytes bytes false).ops.take n) [] = .error .DivideTrap) ∧
    (vmExec (compileBytes bytes false).ops [] = .ok [] ∨
     vmExec (compileBytes bytes false).ops [] = .error .DivideTrap) := by
  have htf := compileBytes_ok_tf bytes false h
  constructor
  · intro n
    obtain ⟨tsn, htn⟩ := typeFoldChecked_take _ _ _ htf n
    rcases vm_sound_run _ _ _ [] htn rfl with ⟨st2, he, hty⟩ | he
    · left
      exact ⟨st2, he, by rw [htn, hty]⟩
    · right
      exact he
  · rcases vm_sound_run _ _ _ [] htf rfl with ⟨st2, he, hty⟩ | he
    · left
      have hnil : st2 = [] := List.map_eq_nil.mp hty
      rw [hnil] at he
      exact he
    · right
      exact he

/-- C1 witness: the program "3 4 + println" compiles and its full run
ends with the empty stack (or a divide trap, which concretely it does
not hit). -/
theorem compile_ok_replay_types_witness :
    vmExec (compileBytes (strBytes "3 4 + println") false).ops [] = .ok [] ∨
    vmExec (compileBytes (strBytes "3 4 + println") false).ops [] = .error .DivideTrap :=
  (compile_ok_replay_types (strBytes "3 4 + println") (by decide)).2

/-- C1 counterexample: "1 0 / drop" compiles without error (type stack
Int Int, then Int, then empty), but replaying the program traps at the
Divide, so execution does not yield a runtime stack matching the type
stack after every prefix, and the final runtime stack never becomes the
empty stack the type stack promises. -/
theorem compile_ok_replay_types_cex :
    (compileBytes (strBytes "1 0 / drop") false).outcome = .ok ∧
    vmExec (compileBytes (strBytes "1 0 / drop") false).ops [] = .error .DivideTrap := by
  refine ⟨by decide, rfl⟩

/-- C2 (amended): for every program that compiles without error, no
prefix of the emitted bytecode ever fails with a stack access: every
pop, top access and indexed access in the VM run is on a deep enough
stack with operands of the tag the union read expects; the only possible
runtime failure is the Divide trap. -/
theorem compile_ok_no_underflow (bytes : List Nat)
    (h : (compileBytes bytes false).outcome = .ok) :
    ∀ n, vmExec ((compileBytes bytes false).ops.take n) [] ≠ .error .StackUnderflow ∧
         vmExec ((compileBytes bytes false).ops.take n) [] ≠ .error .TypeConfusion := by
  intro n
  have htf := compileBytes_ok_tf bytes false h
  obtain ⟨tsn, htn⟩ := typeFoldChecked_take _ _ _ htf n
  rcases vm_sound_run _ _ _ [] htn rfl with ⟨st2, he, hty⟩ | he
  · rw [he]
    exact ⟨by simp, by simp⟩
  · rw [he]
    exact ⟨by simp, by simp⟩

/-- C2 witness: no stack-access failure on any prefix of the compiled
"1 2 swap - println". -/
theorem compile_ok_no_underflow_witness :
    vmExec ((compileBytes (strBytes "1 2 swap - println") false).ops.take 5) [] ≠
      .error .StackUnderflow ∧
    vmExec ((compileBytes (strBytes "1 2 swap - println") false).ops.take 5) [] ≠
      .error .TypeConfusion :=
  compile_ok_no_underflow (strBytes "1 2 swap - println") (by decide) 5

/-- C2 counterexample: the claim allows a runtime failure only when
Divide executes with zero on top of the stack, but the program below
compiles without error and its run traps at a Divide whose divisor (the
top value) is -1 with dividend i64 MIN (Rust division overflow): after
the first eight instructions the stack is top -1, below it -2 ^ 63, and
the ninth instruction fails. -/
theorem compile_ok_no_underflow_cex :
    (compileBytes (strBytes "0 9223372036854775807 - 1 - 0 1 - / println") false).outcome =
      .ok ∧
    vmExec ((compileBytes (strBytes "0 9223372036854775807 - 1 - 0 1 - / println")
        false).ops.take 8) [] =
      .ok [Value.int (-1), Value.int (-9223372036854775808)] ∧
    vmExec (compileBytes (strBytes "0 9223372036854775807 - 1 - 0 1 - / println")
        false).ops [] = .error .DivideTrap := by
  refine ⟨by decide, rfl, rfl⟩

/-- C3 (confirmed): when compilation stops at an error token or with
unhandled data on the type stack, the VM is never invoked and the
program output is empty; the erroring token is the last token scanned
(no further tokens are processed), and the result carries exactly that
one first error. -/
theorem first_error_stops_compilation (bytes : List Nat) (v : Bool) :
    (∀ t m, (compileBytes bytes v).outcome = .errAt t m →
      px2Ran bytes v = false ∧ px2Output bytes v = [] ∧
      1 ≤ (compileBytes bytes v).tokensRead ∧
      t = nthToken bytes ((compileBytes bytes v).tokensRead - 1)) ∧
    ((compileBytes bytes v).outcome = .unhandled →
      px2Ran bytes v = false ∧ px2Output bytes v = []) := by
  constructor
  · intro t m h
    have hr : px2Ran bytes v = false := by
      unfold px2Ran
      rw [h]
    refine ⟨hr, ?_, ?_, ?_⟩
    · unfold px2Output
      rw [hr]
      simp
    · exact (compileBytes_err_first bytes v t m h).1
    · exact (compileBytes_err_first bytes v t m h).2
  · intro h
    have hr : px2Ran bytes v = false := by
      unfold px2Ran
      rw [h]
    refine ⟨hr, ?_⟩
    unfold px2Output
    rw [hr]
    simp

/-- C3 witness: "1 +" errors at the plus token (the second token
scanned), produces no output and never runs the VM. -/
theorem first_error_stops_compilation_witness :
    px2Ran (strBytes "1 +") false = false ∧ px2Output (strBytes "1 +") false = [] ∧
    1 ≤ (compileBytes (strBytes "1 +") false).tokensRead ∧
    ({ token_type := TokenType.Plus, start := 2, length := 1, line := 1, column := 3,
       text := [43] } : Token) =
      nthToken (strBytes "1 +") ((compileBytes (strBytes "1 +") false).tokensRead - 1) :=
  (first_error_stops_compilation (strBytes "1 +") false).1
    { token_type := TokenType.Plus, start := 2, length := 1, line := 1, column := 3,
      text := [43] }
    "expected 2 values on the stack to perform addition, found 1" (by decide)

/-- C4 (amended): on a stack whose top two values are integers a
(deeper) and b (top), Add, Subtract and Multiply pop b then a and push
the 64-bit wrapped a + b, a - b, a * b (equal to the mathematical result
whenever that result is in the i64 range); Divide pushes the quotient
truncated toward zero provided b is nonzero and (a, b) is not
(i64 MIN, -1), and traps otherwise; the program "1 2 swap - println"
prints 1. -/
theorem vm_arith_semantics :
    (∀ (a b : Int) (rest : List Value),
      vmStep (.int b :: .int a :: rest) .Add = .ok (.int (wrap64 (a + b)) :: rest, none) ∧
      vmStep (.int b :: .int a :: rest) .Subtract =
        .ok (.int (wrap64 (a - b)) :: rest, none) ∧
      vmStep (.int b :: .int a :: rest) .Multiply =
        .ok (.int (wrap64 (a * b)) :: rest, none) ∧
      (b ≠ 0 → ¬(a = i64Min ∧ b = -1) →
        vmStep (.int b :: .int a :: rest) .Divide = .ok (.int (a.tdiv b) :: rest, none)) ∧
      ((b = 0 ∨ (a = i64Min ∧ b = -1)) →
        vmStep (.int b :: .int a :: rest) .Divide = .error .DivideTrap)) ∧
    (∀ x : Int, i64Min ≤ x → x ≤ i64Max → wrap64 x = x) ∧
    px2Output (strBytes "1 2 swap - println") false = ["1"] := by
  refine ⟨?_, ?_, ?_⟩
  · intro a b rest
    refine ⟨rfl, rfl, rfl, ?_, ?_⟩
    · intro h1 h2
      rw [vmStep_divide_int, if_neg (by tauto)]
    · intro h
      rw [vmStep_divide_int, if_pos h]
  · intro x h1 h2
    unfold wrap64
    unfold i64Min at h1
    unfold i64Max at h2
    have h63 : (2 : Int) ^ 63 = 9223372036854775808 := by norm_num
    have h64 : (2 : Int) ^ 64 = 18446744073709551616 := by norm_num
    rw [h63, h64] at *
    rw [Int.emod_eq_of_lt (by omega) (by omega)]
    omega
  · decide

/-- C4 witness: dividing 7 by 2 pushes 3 (truncation toward zero with
the left operand the deeper value). -/
theorem vm_arith_semantics_witness :
    vmStep (.int 2 :: .int 7 :: []) .Divide = .ok (.int 3 :: [], none) :=
  ((vm_arith_semantics.1 7 2 []).2.2.2.1) (by decide) (by decide)

/-- C4 counterexample: the claim as stated asserts that Divide pops and
pushes the quotient for every pair of integer operands; with a = 1 and
b = 0 the VM traps instead of pushing a value. -/
theorem vm_arith_semantics_cex :
    vmStep (.int 0 :: .int 1 :: []) .Divide = .error .DivideTrap := rfl

/-- C5 (confirmed): one operation is emitted per accepted token: the
number of emitted operations is always one less than the number of
scan_token calls (the last call being the end-of-input token, the first
erroring token, or the token whose error aborted the pass), and when
compilation consumes the whole input (ok or unhandled data) it equals
the number of source tokens. -/
theorem ops_length_eq_tokens (bytes : List Nat) (v : Bool) :
    (compileBytes bytes v).ops.length + 1 = (compileBytes bytes v).tokensRead ∧
    ((compileBytes bytes v).outcome = .ok ∨ (compileBytes bytes v).outcome = .unhandled →
      (compileBytes bytes v).ops.length = numSourceTokens bytes) :=
  ⟨compileBytes_ops_tokensRead bytes v, compileBytes_count bytes v⟩

/-- C5 witness: "3 4 + println" emits four operations for its four
source tokens. -/
theorem ops_length_eq_tokens_witness :
    (compileBytes (strBytes "3 4 + println") false).ops.length =
      numSourceTokens (strBytes "3 4 + println") :=
  (ops_length_eq_tokens (strBytes "3 4 + println") false).2 (Or.inl (by decide))

/-- C6 (amended): the scanner bookkeeping invariant holds initially and
is preserved by every scan_token call, and under it every token other
than the invalid-character token carries the 1-based column of the first
character of its lexeme and the exact consumed substring as its text;
the invalid-character token instead carries the column one past its
single consumed character and the fixed text Error. -/
theorem token_column_text_amended :
    (∀ bytes : List Nat, ScanInv (Scanner.new bytes)) ∧
    (∀ s : Scanner, ScanInv s →
      ScanInv ((s.scan_token).2) ∧
      (((s.scan_token).1).token_type ≠ .Error →
        ((s.scan_token).1).column = colOf s.code_bytes ((s.scan_token).1).start ∧
        ((s.scan_token).1).text =
          (s.code_bytes.drop ((s.scan_token).1).start).take ((s.scan_token).1).length) ∧
      (((s.scan_token).1).token_type = .Error →
        ((s.scan_token).1).column = colOf s.code_bytes ((s.scan_token).1).start + 1 ∧
        ((s.scan_token).1).text = errorText ∧ ((s.scan_token).1).length = 1)) :=
  ⟨ScanInv_new, scan_token_spec⟩

/-- C6 witness: the invariant is preserved across a concrete scan. -/
theorem token_column_text_amended_witness :
    ScanInv (((Scanner.new (strBytes "42 dup")).scan_token).2) :=
  ((token_column_text_amended).2 (Scanner.new (strBytes "42 dup")) (by decide)).1

/-- C6 counterexample: scanning the buffer with the single byte 63 (a
question mark) produces an invalid token whose column field is 2 while
the first character of its lexeme is at column 1, and whose text is the
fixed string Error rather than the consumed substring. -/
theorem token_column_text_cex :
    ¬((((Scanner.new (strBytes "?")).scan_token).1).column =
        colOf (strBytes "?") (((Scanner.new (strBytes "?")).scan_token).1).start ∧
      (((Scanner.new (strBytes "?")).scan_token).1).text =
        ((strBytes "?").drop (((Scanner.new (strBytes "?")).scan_token).1).start).take
          (((Scanner.new (strBytes "?")).scan_token).1).length) := by
  decide

/-- C7 (code bug): an error on a source line that is not terminated by a
newline makes get_code_at_line panic (find newline returns none and is
unwrapped) instead of reproducing the line: the one-byte source with a
question mark and no trailing newline is rejected at line 1, and the
diagnostic line lookup fails; with a trailing newline the same lookup
returns the line verbatim. -/
theorem diagnostic_line_lookup_bug :
    (compileBytes (strBytes "?") false).outcome =
      .errAt { token_type := .Error, start := 0, length := 1, line := 1, column := 2,
               text := errorText } "invalid token" ∧
    get_code_at_line 1 (strBytes "?") = none ∧
    get_code_at_line 1 (strBytes "? \n") = some (strBytes "? ") := by
  refine ⟨by decide, by decide, by decide⟩

/-- C8 (confirmed): scanning is deterministic: scan_token is a pure
function of the scanner state, so two scanners created on the same
buffer produce identical token sequences however many tokens are
drawn. -/
theorem scan_deterministic (bytes : List Nat) (s1 s2 : Scanner)
    (h1 : s1 = Scanner.new bytes) (h2 : s2 = Scanner.new bytes) (n : Nat) :
    tokenListN s1 n = tokenListN s2 n := by
  subst h1
  subst h2
  rfl

/-- C8 witness: two fresh scanners on the same buffer agree on the first
three tokens. -/
theorem scan_deterministic_witness :
    tokenListN (Scanner.new (strBytes "1 dup")) 3 =
      tokenListN (Scanner.new (strBytes "1 dup")) 3 :=
  scan_deterministic (strBytes "1 dup") _ _ rfl rfl 3

/-- C9 (confirmed): the verbose flag changes only the debug trace: the
compilation outcome, the emitted operation sequence and the lines
printed by executed PrintLine instructions are identical for verbose and
non-verbose runs. -/
theorem verbose_no_influence (bytes : List Nat) :
    (compileBytes bytes true).outcome = (compileBytes bytes false).outcome ∧
    (compileBytes bytes true).ops = (compileBytes bytes false).ops ∧
    px2Output bytes true = px2Output bytes false := by
  obtain ⟨ho, hops, hstack, htr⟩ :=
    compileLoop_verbose (bytes.length + 1) (Scanner.new bytes) [] [] 0 [] [] true false
  have houtcome : (compileBytes bytes true).outcome = (compileBytes bytes false).outcome := by
    unfold compileBytes
    dsimp only
    rw [ho, hstack]
    split
    · split_ifs <;> rfl
    · exact ho
  have hopseq : (compileBytes bytes true).ops = (compileBytes bytes false).ops := by
    unfold compileBytes
    dsimp only
    rw [ho, hstack]
    split
    · split_ifs <;> (dsimp; exact hops)
    · exact hops
  refine ⟨houtcome, hopseq, ?_⟩
  unfold px2Output px2Ran
  rw [houtcome, hopseq]

/-- C10 (confirmed): every scan_token call that does not return the
end-of-input token strictly advances the scanner position and yields a
token of length at least 1, and consequently the compiler token loop
always terminates: with the fuel budget of the buffer length plus one it
never exhausts its fuel. -/
theorem scanner_progress_compile_terminates :
    (∀ s : Scanner, ((s.scan_token).1).token_type ≠ .EndOfFile →
      s.current < ((s.scan_token).2).current ∧ 1 ≤ ((s.scan_token).1).length) ∧
    (∀ (bytes : List Nat) (v : Bool), (compileBytes bytes v).outcome ≠ .fuelOut) := by
  refine ⟨?_, compileBytes_no_fuelOut⟩
  intro s h
  exact ⟨scan_token_progress s h, scan_token_length_pos s h⟩

/-- C10 witness: on the one-byte buffer with a plus sign the scanner
advances and the token has length 1. -/
theorem scanner_progress_compile_terminates_witness :
    (Scanner.new (strBytes "+")).current <
      (((Scanner.new (strBytes "+")).scan_token).2).current ∧
    1 ≤ (((Scanner.new (strBytes "+")).scan_token).1).length :=
  (scanner_progress_compile_terminates).1 (Scanner.new (strBytes "+")) (by decide)

end Px2
